import Mathlib

/-!
# Verification of `src/video_processor.py` (`VideoProcessor`)

Shallow embedding of the two core operations of the repository's
`VideoProcessor` class:

* `extract_frames_with_changes` (scene-boundary detection with frame
  skipping, early-exit minimum-spacing optimization, progress reporting and
  cooperative cancellation), and
* `remove_duplicate_frames` (greedy deduplication of the candidate list
  against the already-kept frames, ML cosine similarity with an SSIM
  fallback).

Modelling conventions:

* A frame dictionary becomes `Frame`: its `frame_number`, `timestamp`, and
  `image`.  `image = none` models a dict whose `'image'` entry is missing or
  is not a `PIL.Image.Image` instance; `image = some i` is a valid image
  whose pixel content is abstracted as the id `i`.
* The similarity strategies are deterministic pure functions of image
  content, packaged in `SimEnv`.  Fallible Python operations (feature
  extraction, `np.dot`, `ssim`) return `Option ℚ`; `none` models the raised
  exception that the source catches (or the missing dictionary entry).
* Machine floats become `ℚ`; Python's `//` becomes `Nat` division, and the
  counter `last_change_processed_frame`, initialized to a negative value,
  lives in `ℤ`.
* Wall-clock driven behaviour (the `time.time()` based progress cadence) is
  outside the embedding; the deterministic progress snapshots (initial,
  every-10th-index, final, stopped) are modelled.
-/

namespace VideoProc

/-- One candidate frame dictionary as built at
`src/video_processor.py:257-263`.  `image = none` models a dict with a
missing or non-`PIL.Image` `'image'` entry (the checks at lines 386-391 and
439-444). -/
structure Frame where
  frame_number : ℕ
  timestamp : ℚ
  image : Option ℕ
deriving DecidableEq

/-- The similarity machinery of one `VideoProcessor` instance, as used by
`remove_duplicate_frames`.  All components are deterministic functions of
image / feature-vector content:

* `use_ml` — the `self.use_ml and self.feature_model is not None and
  TENSORFLOW_AVAILABLE` guard (lines 398, 470) collapsed to one flag;
* `feat img` — the normalized MobileNet feature vector of image `img`
  (lines 399-417); `none` models the caught extraction exception
  (lines 418-420), which stores Python `None` in `frame_features_dict`;
* `dotSim a b` — `np.dot` cosine similarity of two feature vectors
  (line 473); `none` models the caught comparison exception (lines 481-484);
* `ssim u c` — `ssim(unique_gray_small, current_gray_small)` (line 505),
  argument order as in the source; `none` models the caught exception
  (lines 512-513). -/
structure SimEnv where
  use_ml : Bool
  feat : ℕ → Option ℕ
  dotSim : ℕ → ℕ → Option ℚ
  ssim : ℕ → ℕ → Option ℚ

/-- The entry `frame_features_dict.get(idx)` for a frame `f`
(lines 385-422): absent (hence Python `None`) when the frame has no valid
image, `None` when ML is off or extraction failed, otherwise the cached
normalized feature vector.  The source keys the dictionary by list index and
later looks a kept frame up by scanning `frames` for the first
dict-equal element (lines 456-462); since every cached value is a function
of the frame's content alone, that lookup yields exactly the attributes of
the kept frame's value, which is how this embedding states it. -/
def featD (env : SimEnv) (f : Frame) : Option ℕ :=
  match f.image with
  | none => none
  | some img => if env.use_ml then env.feat img else none

/-- The ML comparison of current frame `c` against kept frame `u`
(lines 470-480): fires exactly when ML is in use, both cached feature
vectors exist, `np.dot` does not raise, and
`similarity >= similarity_threshold`. -/
def mlDuplicate (env : SimEnv) (t : ℚ) (c u : Frame) : Bool :=
  env.use_ml &&
    match featD env c, featD env u with
    | some a, some b =>
        match env.dotSim a b with
        | some s => decide (t ≤ s)
        | none => false
    | _, _ => false

/-- The SSIM comparison of current frame `c` against kept frame `u`
(lines 487-511): fires exactly when both frames have a valid image (so both
appear in `frame_images_dict`), `ssim` does not raise, and
`ssim_score >= similarity_threshold`. -/
def ssimDuplicate (env : SimEnv) (t : ℚ) (c u : Frame) : Bool :=
  match c.image, u.image with
  | some ca, some ua =>
      match env.ssim ua ca with
      | some s => decide (t ≤ s)
      | none => false
  | _, _ => false

/-- Whether the inner loop body (lines 453-513) marks `c` a duplicate of the
kept frame `u`: the ML check, and — whenever the ML check did not fire
(`if not is_duplicate and ...`, line 487) — the SSIM check as well. -/
def pairMatch (env : SimEnv) (t : ℚ) (c u : Frame) : Bool :=
  if mlDuplicate env t c u then true else ssimDuplicate env t c u

/-- One iteration of the outer loop over candidates (lines 427-517) acting
on the kept list `acc`: a frame without a valid image is skipped by the
`continue`s at lines 439-444 (so it is never appended); otherwise the frame
is appended unless some kept frame matches it (the inner loop with its
first-match `break`). -/
def dedupStep (env : SimEnv) (t : ℚ) (acc : List Frame) (c : Frame) : List Frame :=
  if c.image = none then acc
  else if acc.any (fun u => pairMatch env t c u) then acc
  else acc ++ [c]

/-- The outer loop of `remove_duplicate_frames` over the candidates after
the first, starting from the seeded kept list `acc` (line 377). -/
def dedupFold (env : SimEnv) (t : ℚ) (acc : List Frame) (cs : List Frame) : List Frame :=
  cs.foldl (dedupStep env t) acc

/-- The kept list computed by `remove_duplicate_frames` (its return value),
including the `len(frames) <= 1` early return at lines 362-363. -/
def dedupUnique (env : SimEnv) (t : ℚ) (frames : List Frame) : List Frame :=
  match frames with
  | [] => []
  | f :: rest => dedupFold env t [f] rest

/-- One progress snapshot emitted by `remove_duplicate_frames` through
`progress_callback` (lines 365-373, 428-436, 521-530).  The
`duplicates_removed` entry of the final snapshot is not modelled (no claim
mentions it). -/
structure DedupSnapshot where
  stage : String
  current_frame : ℕ
  total_frames : ℕ
  percentage : ℚ
  frames_detected : ℕ
  frames_after_dedup : ℕ
deriving DecidableEq

/-- Everything observable about one `remove_duplicate_frames` call: the
returned kept list, the progress snapshots emitted in order, and how many
kept-frame comparisons the inner loop performed. -/
structure DedupResult where
  unique : List Frame
  snapshots : List DedupSnapshot
  comparisons : ℕ
deriving DecidableEq

/-- How many kept frames the inner loop (lines 453-513) examines for the
candidate `c` against kept list `acc`: it breaks at the first match,
otherwise scans the whole kept list. -/
def comparisonsUsed (env : SimEnv) (t : ℚ) (acc : List Frame) (c : Frame) : ℕ :=
  match acc.findIdx? (fun u => pairMatch env t c u) with
  | some i => i + 1
  | none => acc.length

/-- The outer candidate loop of `remove_duplicate_frames` with its progress
reporting (lines 427-517).  `idx` is the running index into the original
candidate list (starting at 1); the `idx % 10 == 0` snapshot (line 428) is
emitted before the image-validity checks, exactly as in the source. -/
def dedupLoop (env : SimEnv) (t : ℚ) (total : ℕ) :
    List Frame → ℕ → List Frame → List DedupSnapshot → ℕ → DedupResult
  | [], _idx, acc, snaps, comps => ⟨acc, snaps, comps⟩
  | c :: cs, idx, acc, snaps, comps =>
      let snaps' :=
        if idx % 10 = 0 then
          snaps ++ [⟨"removing_duplicates", idx, total, (idx : ℚ) / (total : ℚ) * 100,
                     total, acc.length⟩]
        else snaps
      if c.image = none then
        dedupLoop env t total cs (idx + 1) acc snaps' comps
      else if acc.any (fun u => pairMatch env t c u) then
        dedupLoop env t total cs (idx + 1) acc snaps' (comps + comparisonsUsed env t acc c)
      else
        dedupLoop env t total cs (idx + 1) (acc ++ [c]) snaps'
          (comps + comparisonsUsed env t acc c)

/-- `remove_duplicate_frames` (lines 349-532).  Inputs of length ≤ 1 are
returned unchanged before any snapshot or comparison (lines 362-363);
otherwise the kept list is seeded with the first candidate (line 377), the
initial snapshot is emitted (lines 365-373), the outer loop runs, and the
final 100% snapshot is appended (lines 521-530). -/
def remove_duplicate_frames (env : SimEnv) (t : ℚ) (frames : List Frame) : DedupResult :=
  match frames with
  | [] => ⟨[], [], 0⟩
  | [f] => ⟨[f], [], 0⟩
  | f :: g :: rest =>
      let total := (f :: g :: rest).length
      let res := dedupLoop env t total (g :: rest) 1 [f]
        [⟨"removing_duplicates", 0, total, 0, total, 0⟩] 0
      ⟨res.unique,
       res.snapshots ++
         [⟨"removing_duplicates", total, total, 100, total, res.unique.length⟩],
       res.comparisons⟩

/-! ## The scene-boundary detector (`extract_frames_with_changes`) -/

/-- The constructor-time configuration of a `VideoProcessor`
(`__init__`, lines 32-49).  `use_ml` and the strategy live in the
similarity abstraction (`diff` below); thresholds are `ℚ`. -/
structure VideoProcessor where
  change_threshold : ℚ
  min_frame_interval : ℕ
  frame_skip : ℕ

/-- `VideoProcessor.__init__`: `self.frame_skip = max(1, frame_skip)`
(line 46). -/
def mkVideoProcessor (change_threshold : ℚ) (min_frame_interval : ℕ)
    (frame_skip : ℕ) : VideoProcessor :=
  ⟨change_threshold, min_frame_interval, max 1 frame_skip⟩

/-- The loop state of `extract_frames_with_changes` (lines 119-125).
`prev` is the content the next scored frame is compared against
(`prev_frame_features` in the ML branch, `prev_frame_rgb` in the SSIM
branch — both are overwritten on every scored frame, lines 206, 217, 247);
`last_change_processed_frame` starts at `-min_frame_interval`
(line 124), hence `ℤ`. -/
structure ExtractState where
  frames : List Frame
  prev : Option ℕ
  frame_count : ℕ
  processed_frame_count : ℕ
  last_change_processed_frame : ℤ
deriving DecidableEq

/-- The state before the first loop iteration (lines 119-125). -/
def initState (cfg : VideoProcessor) : ExtractState :=
  { frames := []
    prev := none
    frame_count := 0
    processed_frame_count := 0
    last_change_processed_frame := -(cfg.min_frame_interval : ℤ) }

/-- The frame dictionary built on a detected scene change
(lines 250-263): `timestamp = frame_count / fps if fps > 0 else 0`. -/
def mkFrameRecord (fps : ℚ) (frame_count : ℕ) (img : ℕ) : Frame :=
  { frame_number := frame_count
    timestamp := if 0 < fps then (frame_count : ℚ) / fps else 0
    image := some img }

/-- The state after accepting the current frame as a scene change: the
frame is appended, `prev` takes the current content, and
`last_change_processed_frame` takes the already incremented processed
count (lines 201-219 / 236-247 together with 250-264, 267). -/
def acceptFrame (fps : ℚ) (s : ExtractState) (img : ℕ) (processed : ℕ) : ExtractState :=
  { frames := s.frames ++ [mkFrameRecord fps s.frame_count img]
    prev := some img
    frame_count := s.frame_count + 1
    processed_frame_count := processed
    last_change_processed_frame := (processed : ℤ) }

/-- The body of the `while` loop for one successfully read frame of content
`img` (lines 154-267), after the stop check:

1. frames with `frame_count % frame_skip != 0` are skipped (lines 159-161);
2. `processed_frame_count` is incremented (line 165) and the early-exit
   spacing check runs (lines 167-174) with
   `min_processed_interval = max(1, min_frame_interval // frame_skip)` and
   `frames_since_last_change = processed - last_change - 1`; on early exit
   the frame is neither scored nor stored and `prev` is untouched;
3. otherwise the frame is scored: a first frame (`prev` empty) is always a
   scene change (lines 207-219 / 240-244); later frames are a scene change
   exactly when `difference > change_threshold` (lines 201, 236), where
   `diff p img` abstracts both strategies' difference of the previous
   scored content `p` and the current content `img`; `prev` is overwritten
   with the current content in every scored iteration. -/
def stepFrame (cfg : VideoProcessor) (diff : ℕ → ℕ → ℚ) (fps : ℚ)
    (s : ExtractState) (img : ℕ) : ExtractState :=
  if s.frame_count % cfg.frame_skip ≠ 0 then
    { s with frame_count := s.frame_count + 1 }
  else
    if ((s.processed_frame_count + 1 : ℕ) : ℤ) - s.last_change_processed_frame - 1 <
        ((max 1 (cfg.min_frame_interval / cfg.frame_skip) : ℕ) : ℤ) then
      { s with frame_count := s.frame_count + 1
               processed_frame_count := s.processed_frame_count + 1 }
    else
      match s.prev with
      | none => acceptFrame fps s img (s.processed_frame_count + 1)
      | some p =>
          if cfg.change_threshold < diff p img then
            acceptFrame fps s img (s.processed_frame_count + 1)
          else
            { s with prev := some img
                     frame_count := s.frame_count + 1
                     processed_frame_count := s.processed_frame_count + 1 }

/-- Folding `stepFrame` over a list of raw frame contents: the loop of an
uninterrupted run. -/
def runSteps (cfg : VideoProcessor) (diff : ℕ → ℕ → ℚ) (fps : ℚ)
    (imgs : List ℕ) (s : ExtractState) : ExtractState :=
  imgs.foldl (stepFrame cfg diff fps) s

/-- The `while` loop with the cooperative stop check (lines 132-156):
before each read, `stop_check()` is polled — modelled as a predicate on the
current `frame_count` — and on stop the loop returns at once with the
candidates collected so far.  The returned flag records whether the run was
stopped. -/
def extractLoop (cfg : VideoProcessor) (diff : ℕ → ℕ → ℚ) (fps : ℚ)
    (stopAt : ℕ → Bool) : List ℕ → ExtractState → ExtractState × Bool
  | [], s => (s, false)
  | img :: rest, s =>
      if stopAt s.frame_count then (s, true)
      else extractLoop cfg diff fps stopAt rest (stepFrame cfg diff fps s img)

/-- The final progress snapshot of `extract_frames_with_changes`: the
`'stopped'` dict of lines 137-151 or the `'completed'` dict of
lines 299-311.  Neither dict carries any error entry; `error = none`
records that. -/
structure Snapshot where
  stage : String
  frames_detected : ℕ
  stopped : Bool
  error : Option String
deriving DecidableEq

/-- The observable outcome of one `extract_frames_with_changes` call: the
returned candidate list, whether the run was stopped, and the final
progress snapshot.  The time-driven intermediate `'extracting'` snapshots
(lines 269-293) are wall-clock dependent and are not modelled. -/
structure ExtractResult where
  candidates : List Frame
  wasStopped : Bool
  finalSnapshot : Snapshot
deriving DecidableEq

/-- `extract_frames_with_changes` (lines 79-316) on a frame source
delivering the raw contents `imgs` in order, with similarity strategy
`diff`, reported rate `fps`, and stop predicate `stopAt`. -/
def extract_frames_with_changes (cfg : VideoProcessor) (diff : ℕ → ℕ → ℚ)
    (fps : ℚ) (stopAt : ℕ → Bool) (imgs : List ℕ) : ExtractResult :=
  let r := extractLoop cfg diff fps stopAt imgs (initState cfg)
  { candidates := r.1.frames
    wasStopped := r.2
    finalSnapshot :=
      if r.2 then ⟨"stopped", r.1.frames.length, true, none⟩
      else ⟨"completed", r.1.frames.length, false, none⟩ }

/-- `l` is a valid continuation of the kept list `pre`: each of its
elements has a valid image and matches none of the kept frames before
it. -/
inductive KeptChain (env : SimEnv) (t : ℚ) : List Frame → List Frame → Prop
  | nil (pre : List Frame) : KeptChain env t pre []
  | cons (pre : List Frame) (c : Frame) (l : List Frame) :
      ¬c.image = none →
      pre.any (fun u => pairMatch env t c u) = false →
      KeptChain env t (pre ++ [c]) l →
      KeptChain env t pre (c :: l)

/-- The lower bound `min_processed_interval = max(1, min_frame_interval //
frame_skip)` of line 169. -/
def minProcessedInterval (cfg : VideoProcessor) : ℕ :=
  max 1 (cfg.min_frame_interval / cfg.frame_skip)

/-- The processed-frame index of a candidate: raw index `r` (a multiple of
`frame_skip`) is the `r / frame_skip + 1`-st processed frame. -/
def processedIndex (cfg : VideoProcessor) (f : Frame) : ℕ :=
  f.frame_number / cfg.frame_skip + 1

/-- Two consecutive candidates are at least `min_processed_interval`
processed frames apart. -/
def ProcessedSpacing (cfg : VideoProcessor) (f g : Frame) : Prop :=
  minProcessedInterval cfg ≤ processedIndex cfg g - processedIndex cfg f

/-- The loop invariant of `extract_frames_with_changes`: the processed
count is the rounded-up quotient of the consumed raw count, candidate raw
indices are strictly increasing, bounded by the consumed count and pairwise
spaced, and `last_change_processed_frame` is the processed index of the
last accepted candidate. -/
structure ExtractInv (cfg : VideoProcessor) (s : ExtractState) : Prop where
  processed_eq : s.processed_frame_count =
    (s.frame_count + cfg.frame_skip - 1) / cfg.frame_skip
  mem_lt : ∀ f ∈ s.frames, f.frame_number < s.frame_count
  pairwise : s.frames.Pairwise (fun f g => f.frame_number < g.frame_number)
  chain : s.frames.Chain' (ProcessedSpacing cfg)
  last_link : ∀ f, s.frames.getLast? = some f →
    s.last_change_processed_frame = ((f.frame_number / cfg.frame_skip : ℕ) : ℤ) + 1

/-! ## Lemmas about the deduplicator -/

/-- The kept list of the full loop (with snapshots and comparison counts)
is the plain fold of `dedupStep`. -/
lemma dedupLoop_unique (env : SimEnv) (t : ℚ) (total : ℕ) :
    ∀ (cs : List Frame) (idx : ℕ) (acc : List Frame)
      (snaps : List DedupSnapshot) (comps : ℕ),
      (dedupLoop env t total cs idx acc snaps comps).unique = dedupFold env t acc cs := by
  intro cs
  induction cs with
  | nil => intro idx acc snaps comps; rfl
  | cons c cs ih =>
      intro idx acc snaps comps
      by_cases h1 : c.image = none
      · simp [dedupLoop, h1, ih, dedupFold, dedupStep]
      · by_cases h2 : acc.any (fun u => pairMatch env t c u)
        · simp [dedupLoop, h1, h2, ih, dedupFold, dedupStep]
        · simp [dedupLoop, h1, h2, ih, dedupFold, dedupStep]

/-- The kept list returned by `remove_duplicate_frames` is `dedupUnique`. -/
lemma remove_duplicate_frames_unique (env : SimEnv) (t : ℚ) (frames : List Frame) :
    (remove_duplicate_frames env t frames).unique = dedupUnique env t frames := by
  match frames with
  | [] => rfl
  | [f] => rfl
  | f :: g :: rest =>
      simp [remove_duplicate_frames, dedupUnique, dedupLoop_unique]

/-- Each step keeps the kept list a sublist of any list that the processed
candidates extend. -/
lemma dedupFold_sublist (env : SimEnv) (t : ℚ) :
    ∀ (cs acc pre : List Frame), acc.Sublist pre →
      (dedupFold env t acc cs).Sublist (pre ++ cs) := by
  intro cs
  induction cs with
  | nil => intro acc pre h; simpa [dedupFold] using h
  | cons c cs ih =>
      intro acc pre h
      have hstep : (dedupStep env t acc c).Sublist (pre ++ [c]) := by
        unfold dedupStep
        split_ifs with h1 h2
        · exact h.trans (List.sublist_append_left pre [c])
        · exact h.trans (List.sublist_append_left pre [c])
        · exact List.Sublist.append h (List.Sublist.refl [c])
      have h2 := ih (dedupStep env t acc c) (pre ++ [c]) hstep
      simpa [dedupFold, List.append_assoc] using h2

/-- The fold only ever appends: its result extends the starting kept
list. -/
lemma dedupFold_append_ext (env : SimEnv) (t : ℚ) :
    ∀ (cs acc : List Frame), ∃ ys, dedupFold env t acc cs = acc ++ ys := by
  intro cs
  induction cs with
  | nil => intro acc; exact ⟨[], by simp [dedupFold]⟩
  | cons c cs ih =>
      intro acc
      have hrec : dedupFold env t acc (c :: cs) = dedupFold env t (dedupStep env t acc c) cs := rfl
      by_cases h1 : c.image = none
      · obtain ⟨ys, hy⟩ := ih acc
        have hs : dedupStep env t acc c = acc := by simp [dedupStep, h1]
        exact ⟨ys, by rw [hrec, hs, hy]⟩
      · by_cases h2 : acc.any (fun u => pairMatch env t c u)
        · obtain ⟨ys, hy⟩ := ih acc
          have hs : dedupStep env t acc c = acc := by simp [dedupStep, h1, h2]
          exact ⟨ys, by rw [hrec, hs, hy]⟩
        · obtain ⟨ys, hy⟩ := ih (acc ++ [c])
          have hs : dedupStep env t acc c = acc ++ [c] := by simp [dedupStep, h1, h2]
          refine ⟨c :: ys, ?_⟩
          rw [hrec, hs, hy, List.append_assoc]
          rfl


/-- Every kept list produced by the fold is a valid continuation of its
seed. -/
lemma dedupFold_keptChain (env : SimEnv) (t : ℚ) :
    ∀ (cs acc : List Frame),
      ∃ ys, dedupFold env t acc cs = acc ++ ys ∧ KeptChain env t acc ys := by
  intro cs
  induction cs with
  | nil => intro acc; exact ⟨[], by simp [dedupFold], KeptChain.nil acc⟩
  | cons c cs ih =>
      intro acc
      have hrec : dedupFold env t acc (c :: cs) = dedupFold env t (dedupStep env t acc c) cs := rfl
      by_cases h1 : c.image = none
      · obtain ⟨ys, hy, hk⟩ := ih acc
        exact ⟨ys, by rw [hrec]; simpa [dedupStep, h1] using hy, hk⟩
      · by_cases h2 : acc.any (fun u => pairMatch env t c u)
        · obtain ⟨ys, hy, hk⟩ := ih acc
          have hs : dedupStep env t acc c = acc := by simp [dedupStep, h1, h2]
          exact ⟨ys, by rw [hrec, hs, hy], hk⟩
        · obtain ⟨ys, hy, hk⟩ := ih (acc ++ [c])
          have hs : dedupStep env t acc c = acc ++ [c] := by simp [dedupStep, h1, h2]
          have h2' : (acc.any fun u => pairMatch env t c u) = false := by
            simp only [Bool.not_eq_true] at h2
            exact h2
          refine ⟨c :: ys, ?_, ?_⟩
          · rw [hrec, hs, hy, List.append_assoc]
            rfl
          · exact KeptChain.cons acc c ys h1 h2' hk

/-- Refolding a valid continuation reproduces it unchanged. -/
lemma dedupFold_of_keptChain (env : SimEnv) (t : ℚ) :
    ∀ {pre l : List Frame}, KeptChain env t pre l →
      dedupFold env t pre l = pre ++ l := by
  intro pre l h
  induction h with
  | nil pre => simp [dedupFold]
  | cons pre c l h1 h2 _hk ih =>
      have hstep : dedupStep env t pre c = pre ++ [c] := by
        simp [dedupStep, h1, h2]
      have hrec : dedupFold env t pre (c :: l) = dedupFold env t (dedupStep env t pre c) l := rfl
      rw [hrec, hstep, ih, List.append_assoc]
      rfl

/-- Raising the threshold can only turn the ML verdict off, never on. -/
lemma mlDuplicate_mono (env : SimEnv) {t1 t2 : ℚ} (h : t1 ≤ t2) (c u : Frame)
    (hm : mlDuplicate env t2 c u = true) : mlDuplicate env t1 c u = true := by
  cases hf : featD env c with
  | none => simp [mlDuplicate, hf] at hm
  | some a =>
    cases hg : featD env u with
    | none => simp [mlDuplicate, hf, hg] at hm
    | some b =>
      cases hd : env.dotSim a b with
      | none => simp [mlDuplicate, hf, hg, hd] at hm
      | some s =>
        simp only [mlDuplicate, hf, hg, hd, Bool.and_eq_true, decide_eq_true_eq] at hm ⊢
        exact ⟨hm.1, le_trans h hm.2⟩

/-- Raising the threshold can only turn the SSIM verdict off, never on. -/
lemma ssimDuplicate_mono (env : SimEnv) {t1 t2 : ℚ} (h : t1 ≤ t2) (c u : Frame)
    (hm : ssimDuplicate env t2 c u = true) : ssimDuplicate env t1 c u = true := by
  cases hc : c.image with
  | none => simp [ssimDuplicate, hc] at hm
  | some ca =>
    cases hu : u.image with
    | none => simp [ssimDuplicate, hc, hu] at hm
    | some ua =>
      cases hs : env.ssim ua ca with
      | none => simp [ssimDuplicate, hc, hu, hs] at hm
      | some s =>
        simp only [ssimDuplicate, hc, hu, hs, decide_eq_true_eq] at hm ⊢
        exact le_trans h hm

/-- A pair marked duplicate at a higher threshold is marked duplicate at
any lower threshold. -/
lemma pairMatch_mono (env : SimEnv) {t1 t2 : ℚ} (h : t1 ≤ t2) (c u : Frame)
    (hm : pairMatch env t2 c u = true) : pairMatch env t1 c u = true := by
  unfold pairMatch at hm ⊢
  by_cases hml2 : mlDuplicate env t2 c u = true
  · simp [mlDuplicate_mono env h c u hml2]
  · rw [if_neg hml2] at hm
    have hss := ssimDuplicate_mono env h c u hm
    by_cases hml1 : mlDuplicate env t1 c u = true
    · simp [hml1]
    · simp [hml1, hss]

/-- If some kept frame matches at the higher threshold, some kept frame
matches at the lower one. -/
lemma any_pairMatch_mono (env : SimEnv) {t1 t2 : ℚ} (h : t1 ≤ t2) (c : Frame)
    (acc : List Frame)
    (hm : (acc.any fun u => pairMatch env t2 c u) = true) :
    (acc.any fun u => pairMatch env t1 c u) = true := by
  simp only [List.any_eq_true] at hm ⊢
  obtain ⟨u, hu, hp⟩ := hm
  exact ⟨u, hu, pairMatch_mono env h c u hp⟩

/-- When the ML comparison is unavailable or raises for the pair and the
SSIM comparison is unavailable or raises for the pair, the pair produces
no duplicate verdict at all. -/
lemma pairMatch_eq_false_of_both_fail (env : SimEnv) (t : ℚ) (c u : Frame)
    (h1 : ∀ a b, featD env c = some a → featD env u = some b → env.dotSim a b = none)
    (h2 : ∀ ca ua, c.image = some ca → u.image = some ua → env.ssim ua ca = none) :
    pairMatch env t c u = false := by
  have hml : mlDuplicate env t c u = false := by
    unfold mlDuplicate
    cases hf : featD env c with
    | none => simp
    | some a =>
      cases hg : featD env u with
      | none => simp
      | some b => simp [h1 a b hf hg]
  have hss : ssimDuplicate env t c u = false := by
    unfold ssimDuplicate
    cases hc : c.image with
    | none => simp
    | some ca =>
      cases hu : u.image with
      | none => simp
      | some ua => simp [h2 ca ua hc hu]
  simp [pairMatch, hml, hss]

/-- A step adds at most one frame to the kept list. -/
lemma dedupStep_length_le (env : SimEnv) (t : ℚ) (acc : List Frame) (c : Frame) :
    (dedupStep env t acc c).length ≤ acc.length + 1 := by
  unfold dedupStep; split_ifs <;> simp

/-- A step never removes a kept frame. -/
lemma length_le_dedupStep (env : SimEnv) (t : ℚ) (acc : List Frame) (c : Frame) :
    acc.length ≤ (dedupStep env t acc c).length := by
  unfold dedupStep; split_ifs <;> simp

/-- Appending one more candidate to the input runs exactly one more outer
iteration on the kept list of the shorter input. -/
lemma dedupUnique_snoc (env : SimEnv) (t : ℚ) (f c : Frame) (rest : List Frame) :
    dedupUnique env t ((f :: rest) ++ [c]) =
      dedupStep env t (dedupUnique env t (f :: rest)) c := by
  simp [dedupUnique, dedupFold, List.foldl_append]

/-- The kept list is a sublist of the input. -/
lemma remove_duplicate_frames_sublist (env : SimEnv) (t : ℚ) (xs : List Frame) :
    (remove_duplicate_frames env t xs).unique.Sublist xs := by
  rw [remove_duplicate_frames_unique]
  cases xs with
  | nil => simp [dedupUnique]
  | cons f rest =>
      have h := dedupFold_sublist env t rest [f] [f] (List.Sublist.refl [f])
      simpa [dedupUnique] using h

/-- On the same kept list, one outer iteration at a lower threshold keeps
at most as many frames as at a higher threshold. -/
lemma dedupStep_length_mono_same_acc (env : SimEnv) {t1 t2 : ℚ} (h : t1 ≤ t2)
    (acc : List Frame) (c : Frame) :
    (dedupStep env t1 acc c).length ≤ (dedupStep env t2 acc c).length := by
  unfold dedupStep
  by_cases h1 : c.image = none
  · simp [h1]
  · by_cases h2 : (acc.any fun u => pairMatch env t2 c u) = true
    · have h3 := any_pairMatch_mono env h c acc h2
      simp [h1, h2, h3]
    · by_cases h3 : (acc.any fun u => pairMatch env t1 c u) = true <;>
        simp [h1, h2, h3]

/-- Unfolding the kept-list computation on a three-element input. -/
lemma dedupUnique_three (env : SimEnv) (t : ℚ) (a b c : Frame) :
    dedupUnique env t [a, b, c] =
      dedupStep env t (dedupStep env t [a] b) c := by
  simp [dedupUnique, dedupFold]

/-! ## Lemmas about the scene-boundary detector -/

/-- Rounded-up division is plain division on multiples of the divisor. -/
lemma ceil_div_of_dvd (fs n : ℕ) (h1 : 0 < fs) (h : n % fs = 0) :
    (n + fs - 1) / fs = n / fs := by
  obtain ⟨k, rfl⟩ := Nat.dvd_of_mod_eq_zero h
  have e : fs * k + fs - 1 = fs * k + (fs - 1) := by omega
  rw [e, Nat.mul_add_div h1, Nat.div_eq_of_lt (by omega), Nat.mul_div_cancel_left k h1]
  omega

/-- Consuming a frame that survives the skip filter bumps the processed
count. -/
lemma succ_ceil_div_of_dvd (fs n : ℕ) (h1 : 0 < fs) (h : n % fs = 0) :
    (n + 1 + fs - 1) / fs = (n + fs - 1) / fs + 1 := by
  have e : n + 1 + fs - 1 = n + fs := by omega
  rw [e, Nat.add_div_right n h1, ceil_div_of_dvd fs n h1 h]

/-- Consuming a skipped frame leaves the processed count unchanged. -/
lemma succ_ceil_div_of_not_dvd (fs n : ℕ) (h1 : 0 < fs) (h : n % fs ≠ 0) :
    (n + 1 + fs - 1) / fs = (n + fs - 1) / fs := by
  have hn : n ≠ 0 := by rintro rfl; simp at h
  have e1 : n + 1 + fs - 1 = n + fs := by omega
  have e2 : n + fs - 1 = (n - 1) + fs := by omega
  have hd : ¬ fs ∣ n := fun hdvd => h (Nat.mod_eq_zero_of_dvd hdvd)
  rw [e1, e2, Nat.add_div_right _ h1, Nat.add_div_right _ h1]
  have e3 : n = (n - 1) + 1 := by omega
  rw [e3, Nat.succ_div, if_neg (by rw [← e3]; exact hd)]
  simp


/-- The initial state satisfies the invariant. -/
lemma extractInv_init (cfg : VideoProcessor) (hfs : 0 < cfg.frame_skip) :
    ExtractInv cfg (initState cfg) := by
  refine ⟨?_, ?_, ?_, ?_, ?_⟩
  · show (0:ℕ) = (0 + cfg.frame_skip - 1) / cfg.frame_skip
    exact (Nat.div_eq_of_lt (by omega)).symm
  · intro f hf; simp [initState] at hf
  · simp [initState]
  · simp [initState]
  · intro f hf; simp [initState] at hf

/-- Accepting the current frame preserves the invariant, assuming the frame
survived the skip filter and the early-exit check passed. -/
lemma extractInv_accept (cfg : VideoProcessor) (fps : ℚ) (hfs : 0 < cfg.frame_skip)
    (s : ExtractState) (img : ℕ) (h : ExtractInv cfg s)
    (hmod : s.frame_count % cfg.frame_skip = 0)
    (hee : ¬ (((s.processed_frame_count + 1 : ℕ) : ℤ) - s.last_change_processed_frame - 1 <
        ((minProcessedInterval cfg : ℕ) : ℤ))) :
    ExtractInv cfg (acceptFrame fps s img (s.processed_frame_count + 1)) := by
  have hproc : s.processed_frame_count + 1 = s.frame_count / cfg.frame_skip + 1 := by
    rw [h.processed_eq, ceil_div_of_dvd _ _ hfs hmod]
  refine ⟨?_, ?_, ?_, ?_, ?_⟩
  · show s.processed_frame_count + 1 =
      (s.frame_count + 1 + cfg.frame_skip - 1) / cfg.frame_skip
    rw [succ_ceil_div_of_dvd _ _ hfs hmod, ← h.processed_eq]
  · intro f hf
    rcases List.mem_append.mp hf with hf | hf
    · exact Nat.lt_succ_of_lt (h.mem_lt f hf)
    · simp only [List.mem_singleton] at hf
      subst hf
      simp [mkFrameRecord, acceptFrame]
  · rw [show (acceptFrame fps s img (s.processed_frame_count + 1)).frames =
        s.frames ++ [mkFrameRecord fps s.frame_count img] from rfl]
    rw [List.pairwise_append]
    refine ⟨h.pairwise, List.pairwise_singleton _ _, ?_⟩
    intro a ha b hb
    simp only [List.mem_singleton] at hb
    subst hb
    exact h.mem_lt a ha
  · rw [show (acceptFrame fps s img (s.processed_frame_count + 1)).frames =
        s.frames ++ [mkFrameRecord fps s.frame_count img] from rfl]
    rw [List.chain'_append]
    refine ⟨h.chain, List.chain'_singleton _, ?_⟩
    intro x hx y hy
    simp only [List.head?_cons, Option.mem_def, Option.some.injEq] at hy
    subst hy
    have hlc := h.last_link x hx
    rw [hlc] at hee
    unfold ProcessedSpacing processedIndex minProcessedInterval
    unfold minProcessedInterval at hee
    rw [hproc] at hee
    simp only [mkFrameRecord]
    omega
  · intro f hf
    rw [show (acceptFrame fps s img (s.processed_frame_count + 1)).frames =
        s.frames ++ [mkFrameRecord fps s.frame_count img] from rfl] at hf
    rw [List.getLast?_concat] at hf
    have hf' : f = mkFrameRecord fps s.frame_count img := by
      injection hf.symm
    subst hf'
    show ((s.processed_frame_count + 1 : ℕ) : ℤ) = _
    rw [hproc]
    simp [mkFrameRecord]

/-- One loop iteration preserves the invariant. -/
lemma extractInv_step (cfg : VideoProcessor) (diff : ℕ → ℕ → ℚ) (fps : ℚ)
    (hfs : 0 < cfg.frame_skip) (s : ExtractState) (img : ℕ)
    (h : ExtractInv cfg s) : ExtractInv cfg (stepFrame cfg diff fps s img) := by
  unfold stepFrame
  by_cases hskip : s.frame_count % cfg.frame_skip ≠ 0
  · rw [if_pos hskip]
    refine ⟨?_, ?_, h.pairwise, h.chain, h.last_link⟩
    · show s.processed_frame_count =
        (s.frame_count + 1 + cfg.frame_skip - 1) / cfg.frame_skip
      rw [succ_ceil_div_of_not_dvd _ _ hfs hskip, ← h.processed_eq]
    · exact fun f hf => Nat.lt_succ_of_lt (h.mem_lt f hf)
  · rw [if_neg hskip]
    push_neg at hskip
    by_cases hee : ((s.processed_frame_count + 1 : ℕ) : ℤ) - s.last_change_processed_frame - 1 <
        ((max 1 (cfg.min_frame_interval / cfg.frame_skip) : ℕ) : ℤ)
    · rw [if_pos hee]
      refine ⟨?_, ?_, h.pairwise, h.chain, h.last_link⟩
      · show s.processed_frame_count + 1 =
          (s.frame_count + 1 + cfg.frame_skip - 1) / cfg.frame_skip
        rw [succ_ceil_div_of_dvd _ _ hfs hskip, ← h.processed_eq]
      · exact fun f hf => Nat.lt_succ_of_lt (h.mem_lt f hf)
    · rw [if_neg hee]
      have hee' : ¬ (((s.processed_frame_count + 1 : ℕ) : ℤ) -
          s.last_change_processed_frame - 1 < ((minProcessedInterval cfg : ℕ) : ℤ)) := hee
      cases hp : s.prev with
      | none => exact extractInv_accept cfg fps hfs s img h hskip hee'
      | some p =>
          show ExtractInv cfg (if cfg.change_threshold < diff p img then
              acceptFrame fps s img (s.processed_frame_count + 1)
            else { s with prev := some img
                          frame_count := s.frame_count + 1
                          processed_frame_count := s.processed_frame_count + 1 })
          by_cases hth : cfg.change_threshold < diff p img
          · rw [if_pos hth]
            exact extractInv_accept cfg fps hfs s img h hskip hee'
          · rw [if_neg hth]
            refine ⟨?_, ?_, h.pairwise, h.chain, h.last_link⟩
            · show s.processed_frame_count + 1 =
                (s.frame_count + 1 + cfg.frame_skip - 1) / cfg.frame_skip
              rw [succ_ceil_div_of_dvd _ _ hfs hskip, ← h.processed_eq]
            · exact fun f hf => Nat.lt_succ_of_lt (h.mem_lt f hf)

/-- The invariant holds at whatever state the stop-aware loop reaches. -/
lemma extractLoop_inv (cfg : VideoProcessor) (diff : ℕ → ℕ → ℚ) (fps : ℚ)
    (stopAt : ℕ → Bool) (hfs : 0 < cfg.frame_skip) :
    ∀ (imgs : List ℕ) (s : ExtractState), ExtractInv cfg s →
      ExtractInv cfg (extractLoop cfg diff fps stopAt imgs s).1 := by
  intro imgs
  induction imgs with
  | nil => intro s h; exact h
  | cons i rest ih =>
      intro s h
      by_cases hst : stopAt s.frame_count
      · simpa [extractLoop, hst] using h
      · simpa [extractLoop, hst] using
          ih (stepFrame cfg diff fps s i) (extractInv_step cfg diff fps hfs s i h)

/-- One loop iteration only ever appends candidates. -/
lemma stepFrame_frames_ext (cfg : VideoProcessor) (diff : ℕ → ℕ → ℚ) (fps : ℚ)
    (s : ExtractState) (img : ℕ) :
    s.frames <+: (stepFrame cfg diff fps s img).frames := by
  unfold stepFrame
  by_cases h1 : s.frame_count % cfg.frame_skip ≠ 0
  · rw [if_pos h1]
  · rw [if_neg h1]
    by_cases h2 : ((s.processed_frame_count + 1 : ℕ) : ℤ) - s.last_change_processed_frame - 1 <
        ((max 1 (cfg.min_frame_interval / cfg.frame_skip) : ℕ) : ℤ)
    · rw [if_pos h2]
    · rw [if_neg h2]
      cases hp : s.prev with
      | none => exact List.prefix_append _ _
      | some p =>
          show s.frames <+: (if cfg.change_threshold < diff p img then
              acceptFrame fps s img (s.processed_frame_count + 1)
            else { s with prev := some img
                          frame_count := s.frame_count + 1
                          processed_frame_count := s.processed_frame_count + 1 }).frames
          by_cases hth : cfg.change_threshold < diff p img
          · rw [if_pos hth]; exact List.prefix_append _ _
          · rw [if_neg hth]

/-- The candidate list only grows along an uninterrupted run. -/
lemma runSteps_frames_ext (cfg : VideoProcessor) (diff : ℕ → ℕ → ℚ) (fps : ℚ) :
    ∀ (imgs : List ℕ) (s : ExtractState),
      s.frames <+: (runSteps cfg diff fps imgs s).frames := by
  intro imgs
  induction imgs with
  | nil => intro s; exact List.prefix_refl _
  | cons i rest ih =>
      intro s
      exact (stepFrame_frames_ext cfg diff fps s i).trans (ih (stepFrame cfg diff fps s i))

/-- The candidates at the stop point are a prefix of the candidates of the
uninterrupted run from the same state. -/
lemma extractLoop_frames_prefix (cfg : VideoProcessor) (diff : ℕ → ℕ → ℚ) (fps : ℚ)
    (stopAt : ℕ → Bool) :
    ∀ (imgs : List ℕ) (s : ExtractState),
      (extractLoop cfg diff fps stopAt imgs s).1.frames <+:
        (runSteps cfg diff fps imgs s).frames := by
  intro imgs
  induction imgs with
  | nil => intro s; exact List.prefix_refl _
  | cons i rest ih =>
      intro s
      by_cases hst : stopAt s.frame_count
      · show ((if stopAt s.frame_count then (s, true)
            else extractLoop cfg diff fps stopAt rest (stepFrame cfg diff fps s i)).1).frames <+: _
        rw [if_pos hst]
        exact (stepFrame_frames_ext cfg diff fps s i).trans
          (runSteps_frames_ext cfg diff fps rest (stepFrame cfg diff fps s i))
      · show ((if stopAt s.frame_count then (s, true)
            else extractLoop cfg diff fps stopAt rest (stepFrame cfg diff fps s i)).1).frames <+: _
        rw [if_neg hst]
        exact ih (stepFrame cfg diff fps s i)

/-- With a never-true stop predicate the loop is the plain fold and the run
is not flagged as stopped. -/
lemma extractLoop_noStop (cfg : VideoProcessor) (diff : ℕ → ℕ → ℚ) (fps : ℚ) :
    ∀ (imgs : List ℕ) (s : ExtractState),
      extractLoop cfg diff fps (fun _ => false) imgs s =
        (runSteps cfg diff fps imgs s, false) := by
  intro imgs
  induction imgs with
  | nil => intro s; rfl
  | cons i rest ih => intro s; simpa [extractLoop, runSteps] using ih (stepFrame cfg diff fps s i)

/-! ## The claims -/

/-- C1: the claim says the first processed frame (decoded index 0) is
accepted for every configuration with `min_frame_interval ≥ 0`.  The code
disagrees at `min_frame_interval = 0`: then
`last_change_processed_frame = 0`, so for the first processed frame
`frames_since_last_change = 0 < max(1, 0 // frame_skip) = 1` and the
early-exit check at lines 167-174 suppresses it.  On a one-frame source
the candidate list is empty, and on a three-frame source it is non-empty
but starts at decoded index 1, not 0 — both contradicting the claim
(and the code's own `Always include first frame` branch, which is then
unreachable for frame 0). -/
theorem c1_first_frame_suppressed :
    (extract_frames_with_changes (mkVideoProcessor (⟨3, 10, by decide, by decide⟩ : ℚ) 0 1)
        (fun _ _ => 1) 30 (fun _ => false) [7]).candidates = []
    ∧ ((extract_frames_with_changes (mkVideoProcessor (⟨3, 10, by decide, by decide⟩ : ℚ) 0 1)
        (fun _ _ => 1) 30 (fun _ => false) [7, 8, 9]).candidates).map
        (fun f => f.frame_number) = [1] := by
  decide

/-- C2 (amended): a later candidate with a valid image is discarded if and
only if, scanning the already-kept frames in order with a first-match
short-circuit, some kept frame matches it — where a match is the ML cosine
check or, whenever the ML check did not fire (including when it succeeded
with similarity below the threshold), the SSIM check; a candidate without a
valid image is discarded with no comparison at all; kept frames are the
only comparison partners. -/
theorem c2_kept_scan_criterion (env : SimEnv) (t : ℚ) (f c : Frame) (rest : List Frame) :
    (remove_duplicate_frames env t ((f :: rest) ++ [c])).unique =
      (if c.image = none then (remove_duplicate_frames env t (f :: rest)).unique
       else if (remove_duplicate_frames env t (f :: rest)).unique.any
           (fun u => pairMatch env t c u) then
         (remove_duplicate_frames env t (f :: rest)).unique
       else (remove_duplicate_frames env t (f :: rest)).unique ++ [c]) := by
  rw [remove_duplicate_frames_unique, remove_duplicate_frames_unique, dedupUnique_snoc]
  rfl

/-- C2 counterexample: with the ML strategy configured and working, the
pair's ML similarity is 1/2, strictly below the threshold 9/10, yet the
candidate is discarded — because the code also runs the SSIM comparison
(score 19/20) after a below-threshold ML comparison.  So "discarded iff
similarity under the configured strategy ≥ threshold" is false. -/
theorem c2_configured_strategy_not_sole_criterion :
    (remove_duplicate_frames
        ⟨true, fun i => some i, fun _ _ => some (⟨1, 2, by decide, by decide⟩ : ℚ),
          fun _ _ => some (⟨19, 20, by decide, by decide⟩ : ℚ)⟩
        (⟨9, 10, by decide, by decide⟩ : ℚ)
        [⟨0, 0, some 1⟩, ⟨1, 0, some 2⟩]).unique = [⟨0, 0, some 1⟩]
    ∧ (⟨true, fun i => some i, fun _ _ => some (⟨1, 2, by decide, by decide⟩ : ℚ),
          fun _ _ => some (⟨19, 20, by decide, by decide⟩ : ℚ)⟩ : SimEnv).dotSim 2 1 =
        some (⟨1, 2, by decide, by decide⟩ : ℚ)
    ∧ ¬ ((⟨9, 10, by decide, by decide⟩ : ℚ) ≤ (⟨1, 2, by decide, by decide⟩ : ℚ)) := by
  decide

/-- C3: in every run of `extract_frames_with_changes` (stopped or not),
consecutive accepted candidates are separated by at least
`max(1, min_frame_interval // frame_skip)` processed frames, where the
processed index of a candidate at raw index `r` is `r / frame_skip + 1`. -/
theorem c3_processed_spacing (ct : ℚ) (mfi fs : ℕ) (diff : ℕ → ℕ → ℚ) (fps : ℚ)
    (stopAt : ℕ → Bool) (imgs : List ℕ) :
    ((extract_frames_with_changes (mkVideoProcessor ct mfi fs) diff fps
        stopAt imgs).candidates).Chain' (ProcessedSpacing (mkVideoProcessor ct mfi fs)) := by
  have hfs : 0 < (mkVideoProcessor ct mfi fs).frame_skip := by
    simp only [mkVideoProcessor]
    omega
  exact (extractLoop_inv (mkVideoProcessor ct mfi fs) diff fps stopAt hfs imgs
      (initState _) (extractInv_init _ hfs)).chain

/-- C4 (amended): for a candidate with a valid image the pass is fail-open:
a pair for which both the ML comparison and the SSIM comparison are
unavailable or raise produces no duplicate verdict, and a candidate with a
valid image that matches no kept frame is appended to the output.  (The
claim's further assertion that a candidate with a missing or invalid
`'image'` entry is also retained is refuted separately: such candidates are
silently dropped.) -/
theorem c4_fail_open :
    (∀ (env : SimEnv) (t : ℚ) (c u : Frame),
        (∀ a b, featD env c = some a → featD env u = some b → env.dotSim a b = none) →
        (∀ ca ua, c.image = some ca → u.image = some ua → env.ssim ua ca = none) →
        pairMatch env t c u = false)
    ∧ (∀ (env : SimEnv) (t : ℚ) (f c : Frame) (rest : List Frame) (i : ℕ),
        c.image = some i →
        (∀ u ∈ (remove_duplicate_frames env t (f :: rest)).unique,
            pairMatch env t c u = false) →
        (remove_duplicate_frames env t ((f :: rest) ++ [c])).unique =
          (remove_duplicate_frames env t (f :: rest)).unique ++ [c]) := by
  constructor
  · exact fun env t c u h1 h2 => pairMatch_eq_false_of_both_fail env t c u h1 h2
  · intro env t f c rest i hc hall
    rw [remove_duplicate_frames_unique] at hall
    rw [remove_duplicate_frames_unique, remove_duplicate_frames_unique, dedupUnique_snoc]
    have hany : ((dedupUnique env t (f :: rest)).any fun u => pairMatch env t c u) = false := by
      rw [List.any_eq_false]
      intro u hu
      simp [hall u hu]
    unfold dedupStep
    rw [if_neg (by simp [hc]), if_neg (by simp [hany])]

/-- C4 witness: with a strategy environment in which every extraction and
comparison fails, the pair produces no verdict and the candidate is
appended as unique. -/
theorem c4_fail_open_witness :
    pairMatch ⟨false, fun _ => none, fun _ _ => none, fun _ _ => none⟩ (⟨19, 20, by decide, by decide⟩ : ℚ)
        ⟨1, 0, some 2⟩ ⟨0, 0, some 1⟩ = false
    ∧ (remove_duplicate_frames ⟨false, fun _ => none, fun _ _ => none, fun _ _ => none⟩
        (⟨19, 20, by decide, by decide⟩ : ℚ) ([⟨0, 0, some 1⟩] ++ [⟨1, 0, some 2⟩])).unique =
      (remove_duplicate_frames ⟨false, fun _ => none, fun _ _ => none, fun _ _ => none⟩
        (⟨19, 20, by decide, by decide⟩ : ℚ) [⟨0, 0, some 1⟩]).unique ++ [⟨1, 0, some 2⟩] :=
  ⟨c4_fail_open.1 ⟨false, fun _ => none, fun _ _ => none, fun _ _ => none⟩ _
      ⟨1, 0, some 2⟩ ⟨0, 0, some 1⟩ (fun a b h _ => nomatch h) (fun ca ua _ _ => rfl),
   c4_fail_open.2 ⟨false, fun _ => none, fun _ _ => none, fun _ _ => none⟩ _
      ⟨0, 0, some 1⟩ ⟨1, 0, some 2⟩ [] 2 rfl (by decide)⟩

/-- C4 counterexample: a candidate whose frame dictionary has no valid
`'image'` entry is silently dropped by the `continue` at lines 439-444,
not retained as unique as the claim states. -/
theorem c4_missing_image_dropped :
    (remove_duplicate_frames ⟨false, fun _ => none, fun _ _ => none, fun _ _ => none⟩
        (⟨19, 20, by decide, by decide⟩ : ℚ)
        [⟨0, 0, some 1⟩, ⟨1, 0, none⟩]).unique = [⟨0, 0, some 1⟩] := by
  decide

/-- C5: on a non-empty candidate list the output of
`remove_duplicate_frames` is a subsequence of the input in the input's
order, and its first element is the input's first element. -/
theorem c5_subsequence_first_kept (env : SimEnv) (t : ℚ) (f : Frame) (rest : List Frame) :
    ((remove_duplicate_frames env t (f :: rest)).unique).Sublist (f :: rest)
    ∧ ((remove_duplicate_frames env t (f :: rest)).unique).head? = some f := by
  constructor
  · exact remove_duplicate_frames_sublist env t (f :: rest)
  · rw [remove_duplicate_frames_unique]
    obtain ⟨ys, hy⟩ := dedupFold_append_ext env t rest [f]
    simp [dedupUnique, hy]

/-- C6: `remove_duplicate_frames` is idempotent — running it on its own
output returns that output unchanged, for every input and threshold (the
modelled strategies are deterministic functions). -/
theorem c6_dedup_idempotent (env : SimEnv) (t : ℚ) (frames : List Frame) :
    (remove_duplicate_frames env t
        ((remove_duplicate_frames env t frames).unique)).unique =
      (remove_duplicate_frames env t frames).unique := by
  rw [remove_duplicate_frames_unique, remove_duplicate_frames_unique]
  cases frames with
  | nil => rfl
  | cons f rest =>
      obtain ⟨ys, hy, hk⟩ := dedupFold_keptChain env t rest [f]
      have h1 : dedupUnique env t (f :: rest) = f :: ys := by
        simp [dedupUnique, hy]
      rw [h1]
      show dedupFold env t [f] ys = f :: ys
      simpa using dedupFold_of_keptChain env t hk

/-- C7 (amended): raising the deduplication threshold cannot shrink the
output for candidate lists of at most three frames; from four candidates on
it can (see the counterexample), because a frame kept only at the higher
threshold then eliminates later frames that the lower-threshold run
keeps. -/
theorem c7_threshold_monotone_upto_three (env : SimEnv) (t1 t2 : ℚ) (h : t1 ≤ t2)
    (frames : List Frame) (hlen : frames.length ≤ 3) :
    ((remove_duplicate_frames env t1 frames).unique).length ≤
      ((remove_duplicate_frames env t2 frames).unique).length := by
  rw [remove_duplicate_frames_unique, remove_duplicate_frames_unique]
  rcases frames with _ | ⟨a, _ | ⟨b, _ | ⟨c, _ | ⟨d, rest⟩⟩⟩⟩
  · exact Nat.le.refl
  · exact Nat.le.refl
  · have e : ∀ t : ℚ, dedupUnique env t [a, b] = dedupStep env t [a] b := fun t => rfl
    rw [e, e]
    exact dedupStep_length_mono_same_acc env h [a] b
  · rw [dedupUnique_three, dedupUnique_three]
    by_cases hb : b.image = none
    · have e : ∀ t : ℚ, dedupStep env t [a] b = [a] := by
        intro t; simp [dedupStep, hb]
      rw [e, e]
      exact dedupStep_length_mono_same_acc env h [a] c
    · by_cases hb1 : ([a].any fun u => pairMatch env t1 b u) = true
      · by_cases hb2 : ([a].any fun u => pairMatch env t2 b u) = true
        · have e1 : dedupStep env t1 [a] b = [a] := by simp [dedupStep, hb, hb1]
          have e2 : dedupStep env t2 [a] b = [a] := by simp [dedupStep, hb, hb2]
          rw [e1, e2]
          exact dedupStep_length_mono_same_acc env h [a] c
        · have e1 : dedupStep env t1 [a] b = [a] := by simp [dedupStep, hb, hb1]
          have e2 : dedupStep env t2 [a] b = [a, b] := by simp [dedupStep, hb, hb2]
          rw [e1, e2]
          have g1 := dedupStep_length_le env t1 [a] c
          have g2 := length_le_dedupStep env t2 [a, b] c
          simp only [List.length_singleton] at g1
          simp only [List.length_cons, List.length_singleton] at g2
          omega
      · have hb2 : ¬ ([a].any fun u => pairMatch env t2 b u) = true := fun hx =>
          hb1 (any_pairMatch_mono env h b [a] hx)
        have e1 : dedupStep env t1 [a] b = [a, b] := by simp [dedupStep, hb, hb1]
        have e2 : dedupStep env t2 [a] b = [a, b] := by simp [dedupStep, hb, hb2]
        rw [e1, e2]
        exact dedupStep_length_mono_same_acc env h [a, b] c
  · simp only [List.length_cons] at hlen
    omega

/-- C7 witness: a concrete two-frame instance of the amended claim. -/
theorem c7_threshold_monotone_upto_three_witness :
    ((remove_duplicate_frames ⟨false, fun _ => none, fun _ _ => none, fun _ _ => some 0⟩
        (0 : ℚ) [⟨0, 0, some 1⟩, ⟨1, 0, some 2⟩]).unique).length ≤
      ((remove_duplicate_frames ⟨false, fun _ => none, fun _ _ => none, fun _ _ => some 0⟩
        (1 : ℚ) [⟨0, 0, some 1⟩, ⟨1, 0, some 2⟩]).unique).length :=
  c7_threshold_monotone_upto_three ⟨false, fun _ => none, fun _ _ => none, fun _ _ => some 0⟩
    0 1 (by decide) [⟨0, 0, some 1⟩, ⟨1, 0, some 2⟩] (by decide)

/-- C7 counterexample: with SSIM scores `ssim(1,2) = 3/5`,
`ssim(2,3) = 4/5`, `ssim(2,4) = 9/10` and `1/10` elsewhere, on four
candidates the threshold `1/2` keeps three frames (it drops the second,
which then never eliminates anything) while the larger threshold `3/4`
keeps only two (it keeps the second, which then eliminates the third and
fourth) — so a higher threshold shrinks the output, refuting the claim. -/
theorem c7_not_monotone_in_threshold :
    ((⟨1, 2, by decide, by decide⟩ : ℚ) ≤ (⟨3, 4, by decide, by decide⟩ : ℚ))
    ∧ ((remove_duplicate_frames
        ⟨false, fun _ => none, fun _ _ => none,
          fun u c =>
            if u = 1 ∧ c = 2 then some (⟨3, 5, by decide, by decide⟩ : ℚ)
            else if u = 2 ∧ c = 3 then some (⟨4, 5, by decide, by decide⟩ : ℚ)
            else if u = 2 ∧ c = 4 then some (⟨9, 10, by decide, by decide⟩ : ℚ)
            else some (⟨1, 10, by decide, by decide⟩ : ℚ)⟩
        (⟨3, 4, by decide, by decide⟩ : ℚ)
        [⟨0, 0, some 1⟩, ⟨1, 0, some 2⟩, ⟨2, 0, some 3⟩, ⟨3, 0, some 4⟩]).unique).length <
      ((remove_duplicate_frames
        ⟨false, fun _ => none, fun _ _ => none,
          fun u c =>
            if u = 1 ∧ c = 2 then some (⟨3, 5, by decide, by decide⟩ : ℚ)
            else if u = 2 ∧ c = 3 then some (⟨4, 5, by decide, by decide⟩ : ℚ)
            else if u = 2 ∧ c = 4 then some (⟨9, 10, by decide, by decide⟩ : ℚ)
            else some (⟨1, 10, by decide, by decide⟩ : ℚ)⟩
        (⟨1, 2, by decide, by decide⟩ : ℚ)
        [⟨0, 0, some 1⟩, ⟨1, 0, some 2⟩, ⟨2, 0, some 3⟩, ⟨3, 0, some 4⟩]).unique).length := by
  decide

/-- C8: when the stop predicate fires at a frame boundary, the run returns
normally with a final snapshot of stage `'stopped'` and no error entry, and
its candidate list is a prefix, in index order, of the candidate list of
the uninterrupted run on the same input and configuration. -/
theorem c8_stop_prefix (cfg : VideoProcessor) (diff : ℕ → ℕ → ℚ) (fps : ℚ)
    (stopAt : ℕ → Bool) (imgs : List ℕ)
    (h : (extract_frames_with_changes cfg diff fps stopAt imgs).wasStopped = true) :
    (extract_frames_with_changes cfg diff fps stopAt imgs).finalSnapshot.stage = "stopped"
    ∧ (extract_frames_with_changes cfg diff fps stopAt imgs).finalSnapshot.error = none
    ∧ (extract_frames_with_changes cfg diff fps stopAt imgs).candidates <+:
        (extract_frames_with_changes cfg diff fps (fun _ => false) imgs).candidates := by
  have h2 : (extractLoop cfg diff fps stopAt imgs (initState cfg)).2 = true := h
  refine ⟨?_, ?_, ?_⟩
  · show (if (extractLoop cfg diff fps stopAt imgs (initState cfg)).2 then
        (⟨"stopped", (extractLoop cfg diff fps stopAt imgs (initState cfg)).1.frames.length,
          true, none⟩ : Snapshot)
      else ⟨"completed",
        (extractLoop cfg diff fps stopAt imgs (initState cfg)).1.frames.length,
        false, none⟩).stage = "stopped"
    rw [if_pos h2]
  · show (if (extractLoop cfg diff fps stopAt imgs (initState cfg)).2 then
        (⟨"stopped", (extractLoop cfg diff fps stopAt imgs (initState cfg)).1.frames.length,
          true, none⟩ : Snapshot)
      else ⟨"completed",
        (extractLoop cfg diff fps stopAt imgs (initState cfg)).1.frames.length,
        false, none⟩).error = none
    rw [if_pos h2]
  · show (extractLoop cfg diff fps stopAt imgs (initState cfg)).1.frames <+:
        (extractLoop cfg diff fps (fun _ => false) imgs (initState cfg)).1.frames
    rw [extractLoop_noStop cfg diff fps imgs (initState cfg)]
    exact extractLoop_frames_prefix cfg diff fps stopAt imgs (initState cfg)

/-- C8 witness: a run stopped after one frame, compared with its
uninterrupted counterpart. -/
theorem c8_stop_prefix_witness :
    (extract_frames_with_changes (mkVideoProcessor 0 1 1) (fun _ _ => 1) 30
        (fun n => decide (n = 1)) [4, 5, 6]).wasStopped = true
    ∧ ((extract_frames_with_changes (mkVideoProcessor 0 1 1) (fun _ _ => 1) 30
          (fun n => decide (n = 1)) [4, 5, 6]).finalSnapshot.stage = "stopped"
        ∧ (extract_frames_with_changes (mkVideoProcessor 0 1 1) (fun _ _ => 1) 30
          (fun n => decide (n = 1)) [4, 5, 6]).finalSnapshot.error = none
        ∧ (extract_frames_with_changes (mkVideoProcessor 0 1 1) (fun _ _ => 1) 30
            (fun n => decide (n = 1)) [4, 5, 6]).candidates <+:
          (extract_frames_with_changes (mkVideoProcessor 0 1 1) (fun _ _ => 1) 30
            (fun _ => false) [4, 5, 6]).candidates) :=
  ⟨by decide,
   c8_stop_prefix (mkVideoProcessor 0 1 1) (fun _ _ => 1) 30
     (fun n => decide (n = 1)) [4, 5, 6] (by decide)⟩

/-- C9: the `frame_number`s of the candidates returned by
`extract_frames_with_changes` are strictly increasing, and whenever the
input of `remove_duplicate_frames` has strictly increasing `frame_number`s
so does its output. -/
theorem c9_strictly_increasing :
    (∀ (ct : ℚ) (mfi fs : ℕ) (diff : ℕ → ℕ → ℚ) (fps : ℚ)
        (stopAt : ℕ → Bool) (imgs : List ℕ),
      ((extract_frames_with_changes (mkVideoProcessor ct mfi fs) diff fps
          stopAt imgs).candidates).Pairwise (fun f g => f.frame_number < g.frame_number))
    ∧ (∀ (env : SimEnv) (t : ℚ) (xs : List Frame),
        xs.Pairwise (fun f g => f.frame_number < g.frame_number) →
        ((remove_duplicate_frames env t xs).unique).Pairwise
          (fun f g => f.frame_number < g.frame_number)) := by
  constructor
  · intro ct mfi fs diff fps stopAt imgs
    have hfs : 0 < (mkVideoProcessor ct mfi fs).frame_skip := by
      simp only [mkVideoProcessor]
      omega
    exact (extractLoop_inv (mkVideoProcessor ct mfi fs) diff fps stopAt hfs imgs
        (initState _) (extractInv_init _ hfs)).pairwise
  · intro env t xs h
    exact h.sublist (remove_duplicate_frames_sublist env t xs)

/-- C9 witness: a concrete run of each half. -/
theorem c9_strictly_increasing_witness :
    ((extract_frames_with_changes (mkVideoProcessor 0 1 1) (fun _ _ => 1) 30
        (fun _ => false) [5, 6, 7]).candidates).Pairwise
      (fun f g => f.frame_number < g.frame_number)
    ∧ ((remove_duplicate_frames ⟨false, fun _ => none, fun _ _ => none, fun _ _ => none⟩
        (0 : ℚ) [⟨0, 0, some 1⟩, ⟨1, 0, some 2⟩]).unique).Pairwise
      (fun f g => f.frame_number < g.frame_number) :=
  ⟨c9_strictly_increasing.1 0 1 1 (fun _ _ => 1) 30 (fun _ => false) [5, 6, 7],
   c9_strictly_increasing.2 ⟨false, fun _ => none, fun _ _ => none, fun _ _ => none⟩
     0 [⟨0, 0, some 1⟩, ⟨1, 0, some 2⟩] (by decide)⟩

/-- C10: inputs of length zero or one are returned unchanged, with no
progress snapshot emitted and no comparison performed. -/
theorem c10_short_input_identity (env : SimEnv) (t : ℚ) :
    remove_duplicate_frames env t [] = ⟨[], [], 0⟩
    ∧ ∀ f : Frame, remove_duplicate_frames env t [f] = ⟨[f], [], 0⟩ :=
  ⟨rfl, fun _ => rfl⟩

end VideoProc
